import Mathlib

/-!
Verification development for the `nad_simple` receiver integration:
a shallow embedding of the protocol client (`client.py`), the coordinator
(`__init__.py`) and the media-player volume arithmetic (`media_player.py`),
together with theorems about framing, the send/retry policy, the reconnect
guard, disconnect, message handling, debounce coalescing, source discovery
and the volume conversions.
-/

namespace NADSimple

/-! ## Framer (`NADClient._process_data`)

Strings on the wire are modelled as `List Char`.  `splitFirst pat s`
mirrors Python's `s.split(pat, 1)`: it splits `s` at the first occurrence
of `pat`, returning the parts before and after, or `none` when `pat` does
not occur.  `containsSub pat s` mirrors Python's `pat in s`. -/

/-- Carriage return. -/
def CRc : Char := '\r'

/-- Line feed. -/
def LFc : Char := '\n'

/-- `leadsWith p s` is true when `p` is an initial segment of `s`. -/
def leadsWith : List Char → List Char → Bool
  | [], _ => true
  | _ :: _, [] => false
  | p :: ps, c :: cs => p == c && leadsWith ps cs

/-- Split at the first occurrence of `pat` (Python `s.split(pat, 1)`). -/
def splitFirst (pat : List Char) : List Char → Option (List Char × List Char)
  | [] => none
  | c :: rest =>
    if leadsWith pat (c :: rest) then
      some ([], (c :: rest).drop pat.length)
    else
      match splitFirst pat rest with
      | some (pre, post) => some (c :: pre, post)
      | none => none

/-- Python's substring test `pat in s`. -/
def containsSub (pat : List Char) (s : List Char) : Bool :=
  (splitFirst pat s).isSome

theorem leadsWith_eq_append (p s : List Char) (h : leadsWith p s = true) :
    s = p ++ s.drop p.length := by
  induction p generalizing s with
  | nil => simp
  | cons c cs ih =>
    cases s with
    | nil => simp [leadsWith] at h
    | cons d ds =>
      simp only [leadsWith, Bool.and_eq_true, beq_iff_eq] at h
      obtain ⟨rfl, h2⟩ := h
      simpa using ih ds h2

theorem splitFirst_eq_append {pat s pre post : List Char}
    (h : splitFirst pat s = some (pre, post)) :
    pre ++ pat ++ post = s := by
  induction s generalizing pre with
  | nil => simp [splitFirst] at h
  | cons c rest ih =>
    by_cases hl : leadsWith pat (c :: rest) = true
    · rw [splitFirst, if_pos hl] at h
      obtain ⟨h1, h2⟩ := Prod.mk.injEq .. ▸ Option.some.injEq .. ▸ h
      subst h1; subst h2
      simpa using (leadsWith_eq_append pat (c :: rest) hl).symm
    · rw [splitFirst, if_neg hl] at h
      cases hsp : splitFirst pat rest with
      | none => rw [hsp] at h; exact absurd h (by simp)
      | some pq =>
        obtain ⟨p, q⟩ := pq
        rw [hsp] at h
        obtain ⟨h1, h2⟩ := Prod.mk.injEq .. ▸ Option.some.injEq .. ▸ h
        subst h2
        have := ih hsp
        rw [← h1]
        simpa using this

theorem splitFirst_post_length {pat s pre post : List Char}
    (hpat : pat ≠ []) (h : splitFirst pat s = some (pre, post)) :
    post.length < s.length := by
  have happ := splitFirst_eq_append h
  have : pre.length + pat.length + post.length = s.length := by
    rw [← happ]; simp [List.length_append]; ring
  have hp : 1 ≤ pat.length := by
    cases pat with
    | nil => exact absurd rfl hpat
    | cons a l => simp
  omega

/-- One `_process_data` draining loop: repeatedly split the buffer on the
first line terminator, checking `"\r\n"` first, then `"\n"`, then `"\r"`,
exactly as the `while` loop in `NADClient._process_data` does; returns the
emitted lines in order together with the leftover buffer. -/
def processBuffer (buf : List Char) : List (List Char) × List Char :=
  if containsSub [CRc] buf || containsSub [LFc] buf then
    match h2 : splitFirst [CRc, LFc] buf with
    | some (line, rest) =>
      have : rest.length < buf.length := splitFirst_post_length (by simp) h2
      let r := processBuffer rest
      (line :: r.1, r.2)
    | none =>
      match hn : splitFirst [LFc] buf with
      | some (line, rest) =>
        have : rest.length < buf.length := splitFirst_post_length (by simp) hn
        let r := processBuffer rest
        (line :: r.1, r.2)
      | none =>
        match hr : splitFirst [CRc] buf with
        | some (line, rest) =>
          have : rest.length < buf.length := splitFirst_post_length (by simp) hr
          let r := processBuffer rest
          (line :: r.1, r.2)
        | none => ([], buf)
  else ([], buf)
  termination_by buf.length

/-- `NADClient._process_data`: append the chunk to the buffer, then drain
complete lines. -/
def processData (buf data : List Char) : List (List Char) × List Char :=
  processBuffer (buf ++ data)

/-- Feed a sequence of chunks through `_process_data`, starting from the
empty buffer; collect all emitted lines and the final leftover buffer. -/
def feedChunks (chunks : List (List Char)) : List (List Char) × List Char :=
  chunks.foldl
    (fun acc chunk =>
      let r := processData acc.2 chunk
      (acc.1 ++ r.1, r.2))
    ([], [])

/-- Interleave lines with the separators that terminated them. -/
def joinWithSeps : List (List Char) → List (List Char) → List Char
  | l :: ls, sp :: sps => l ++ sp ++ joinWithSeps ls sps
  | _, _ => []

/-- A separator emitted by the framer: `"\r\n"`, `"\n"`, or `"\r"`. -/
def isTerm (sp : List Char) : Prop :=
  sp = [CRc, LFc] ∨ sp = [LFc] ∨ sp = [CRc]

theorem containsSub_of_mem {c : Char} {s : List Char} (h : c ∈ s) :
    containsSub [c] s = true := by
  induction s with
  | nil => simp at h
  | cons d ds ih =>
    unfold containsSub splitFirst
    by_cases hdc : leadsWith [c] (d :: ds) = true
    · rw [if_pos hdc]; rfl
    · rw [if_neg hdc]
      have hcd : c ≠ d := by
        intro hEq; apply hdc; subst hEq; simp [leadsWith]
      have hmem : c ∈ ds := by
        rcases List.mem_cons.mp h with h1 | h1
        · exact absurd h1 hcd
        · exact h1
      have hds := ih hmem
      unfold containsSub at hds
      cases hsp : splitFirst [c] ds with
      | none => rw [hsp] at hds; simp at hds
      | some pq => simp

theorem mem_of_splitFirst_crlf {buf line rest : List Char}
    (h : splitFirst [CRc, LFc] buf = some (line, rest)) : CRc ∈ buf := by
  have happ := splitFirst_eq_append h
  rw [← happ]; simp

theorem mem_of_splitFirst_lf {buf line rest : List Char}
    (h : splitFirst [LFc] buf = some (line, rest)) : LFc ∈ buf := by
  have happ := splitFirst_eq_append h
  rw [← happ]; simp

theorem mem_of_splitFirst_cr {buf line rest : List Char}
    (h : splitFirst [CRc] buf = some (line, rest)) : CRc ∈ buf := by
  have happ := splitFirst_eq_append h
  rw [← happ]; simp

/-- Unfolding: when `"\r\n"` occurs in the buffer, the first emitted line is
the part before its first occurrence (the `if "\r\n" in self._buffer` branch). -/
theorem processBuffer_eq_crlf {buf line rest : List Char}
    (h : splitFirst [CRc, LFc] buf = some (line, rest)) :
    processBuffer buf = (line :: (processBuffer rest).1, (processBuffer rest).2) := by
  have hguard : (containsSub [CRc] buf || containsSub [LFc] buf) = true := by
    rw [containsSub_of_mem (mem_of_splitFirst_crlf h)]; rfl
  rw [processBuffer, if_pos hguard]
  split
  · next line2 rest2 heq =>
    rw [h] at heq
    obtain ⟨h1, h2⟩ := Prod.mk.injEq .. ▸ Option.some.injEq .. ▸ heq
    subst h1; subst h2; rfl
  · next heq => rw [h] at heq; exact absurd heq (by simp)

/-- Unfolding: with no `"\r\n"` but a `"\n"` present, split on the first `"\n"`. -/
theorem processBuffer_eq_lf {buf line rest : List Char}
    (h2 : splitFirst [CRc, LFc] buf = none)
    (h : splitFirst [LFc] buf = some (line, rest)) :
    processBuffer buf = (line :: (processBuffer rest).1, (processBuffer rest).2) := by
  have hguard : (containsSub [CRc] buf || containsSub [LFc] buf) = true := by
    rw [containsSub_of_mem (mem_of_splitFirst_lf h)]; simp
  rw [processBuffer, if_pos hguard]
  split
  · next line2 rest2 heq => rw [h2] at heq; exact absurd heq (by simp)
  · next heq =>
    split
    · next line2 rest2 heq2 =>
      rw [h] at heq2
      obtain ⟨ha, hb⟩ := Prod.mk.injEq .. ▸ Option.some.injEq .. ▸ heq2
      subst ha; subst hb; rfl
    · next heq2 => rw [h] at heq2; exact absurd heq2 (by simp)

/-- Unfolding: with no `"\r\n"` and no `"\n"` but a `"\r"`, split on the
first `"\r"`. -/
theorem processBuffer_eq_cr {buf line rest : List Char}
    (h2 : splitFirst [CRc, LFc] buf = none)
    (hn : splitFirst [LFc] buf = none)
    (h : splitFirst [CRc] buf = some (line, rest)) :
    processBuffer buf = (line :: (processBuffer rest).1, (processBuffer rest).2) := by
  have hguard : (containsSub [CRc] buf || containsSub [LFc] buf) = true := by
    rw [containsSub_of_mem (mem_of_splitFirst_cr h)]; rfl
  rw [processBuffer, if_pos hguard]
  split
  · next line2 rest2 heq => rw [h2] at heq; exact absurd heq (by simp)
  · next heq =>
    split
    · next line2 rest2 heq2 => rw [hn] at heq2; exact absurd heq2 (by simp)
    · next heq2 =>
      split
      · next line2 rest2 heq3 =>
        rw [h] at heq3
        obtain ⟨ha, hb⟩ := Prod.mk.injEq .. ▸ Option.some.injEq .. ▸ heq3
        subst ha; subst hb; rfl
      · next heq3 => rw [h] at heq3; exact absurd heq3 (by simp)

/-- Unfolding: with no terminator at all the buffer is left untouched. -/
theorem processBuffer_eq_none {buf : List Char}
    (h2 : splitFirst [CRc, LFc] buf = none)
    (hn : splitFirst [LFc] buf = none)
    (hr : splitFirst [CRc] buf = none) :
    processBuffer buf = ([], buf) := by
  rw [processBuffer]
  split
  · split
    · next line2 rest2 heq => rw [h2] at heq; exact absurd heq (by simp)
    · next heq =>
      split
      · next line2 rest2 heq2 => rw [hn] at heq2; exact absurd heq2 (by simp)
      · next heq2 =>
        split
        · next line2 rest2 heq3 => rw [hr] at heq3; exact absurd heq3 (by simp)
        · rfl
  · rfl

/-- Conservation for one buffer drain: the emitted lines, interleaved with
some choice of terminators, followed by the leftover buffer, reassemble the
original buffer. -/
theorem processBuffer_conserves (buf : List Char) :
    ∃ seps : List (List Char),
      seps.length = (processBuffer buf).1.length ∧
      (∀ sp ∈ seps, isTerm sp) ∧
      joinWithSeps (processBuffer buf).1 seps ++ (processBuffer buf).2 = buf := by
  suffices H : ∀ n (buf : List Char), buf.length = n →
      ∃ seps : List (List Char),
        seps.length = (processBuffer buf).1.length ∧
        (∀ sp ∈ seps, isTerm sp) ∧
        joinWithSeps (processBuffer buf).1 seps ++ (processBuffer buf).2 = buf by
    exact H buf.length buf rfl
  intro n
  induction n using Nat.strong_induction_on with
  | _ n ih =>
    intro buf hlen
    cases h2 : splitFirst [CRc, LFc] buf with
    | some pq =>
      obtain ⟨line, rest⟩ := pq
      have hlt : rest.length < n := hlen ▸ splitFirst_post_length (by simp) h2
      obtain ⟨seps, hslen, hterm, hjoin⟩ := ih rest.length hlt rest rfl
      refine ⟨[CRc, LFc] :: seps, ?_, ?_, ?_⟩
      · rw [processBuffer_eq_crlf h2]; simp [hslen]
      · intro sp hsp
        rcases List.mem_cons.mp hsp with h1 | h1
        · exact Or.inl h1
        · exact hterm sp h1
      · rw [processBuffer_eq_crlf h2]
        have happ := splitFirst_eq_append h2
        simp only [joinWithSeps, List.append_assoc]
        rw [hjoin]
        simpa using happ
    | none =>
    cases hn2 : splitFirst [LFc] buf with
    | some pq =>
      obtain ⟨line, rest⟩ := pq
      have hlt : rest.length < n := hlen ▸ splitFirst_post_length (by simp) hn2
      obtain ⟨seps, hslen, hterm, hjoin⟩ := ih rest.length hlt rest rfl
      refine ⟨[LFc] :: seps, ?_, ?_, ?_⟩
      · rw [processBuffer_eq_lf h2 hn2]; simp [hslen]
      · intro sp hsp
        rcases List.mem_cons.mp hsp with h1 | h1
        · exact Or.inr (Or.inl h1)
        · exact hterm sp h1
      · rw [processBuffer_eq_lf h2 hn2]
        have happ := splitFirst_eq_append hn2
        simp only [joinWithSeps, List.append_assoc]
        rw [hjoin]
        simpa using happ
    | none =>
    cases hr2 : splitFirst [CRc] buf with
    | some pq =>
      obtain ⟨line, rest⟩ := pq
      have hlt : rest.length < n := hlen ▸ splitFirst_post_length (by simp) hr2
      obtain ⟨seps, hslen, hterm, hjoin⟩ := ih rest.length hlt rest rfl
      refine ⟨[CRc] :: seps, ?_, ?_, ?_⟩
      · rw [processBuffer_eq_cr h2 hn2 hr2]; simp [hslen]
      · intro sp hsp
        rcases List.mem_cons.mp hsp with h1 | h1
        · exact Or.inr (Or.inr h1)
        · exact hterm sp h1
      · rw [processBuffer_eq_cr h2 hn2 hr2]
        have happ := splitFirst_eq_append hr2
        simp only [joinWithSeps, List.append_assoc]
        rw [hjoin]
        simpa using happ
    | none =>
      rw [processBuffer_eq_none h2 hn2 hr2]
      exact ⟨[], by simp, by simp, by simp [joinWithSeps]⟩

theorem joinWithSeps_append {ls1 sps1 : List (List Char)} (ls2 sps2 : List (List Char))
    (h : sps1.length = ls1.length) :
    joinWithSeps (ls1 ++ ls2) (sps1 ++ sps2) =
      joinWithSeps ls1 sps1 ++ joinWithSeps ls2 sps2 := by
  induction ls1 generalizing sps1 with
  | nil =>
    cases sps1 with
    | nil => simp [joinWithSeps]
    | cons sp sps => simp at h
  | cons l ls ih =>
    cases sps1 with
    | nil => simp at h
    | cons sp sps =>
      have hlen : sps.length = ls.length := by simpa using h
      simp only [List.cons_append, joinWithSeps, List.append_eq]
      rw [ih hlen]
      simp [List.append_assoc]

theorem feedChunks_aux (chunks : List (List Char)) :
    ∀ (lines0 : List (List Char)) (buf0 : List Char),
      ∃ (newlines seps : List (List Char)),
        (chunks.foldl
          (fun acc chunk =>
            let r := processData acc.2 chunk
            (acc.1 ++ r.1, r.2)) (lines0, buf0)).1 = lines0 ++ newlines ∧
        seps.length = newlines.length ∧
        (∀ sp ∈ seps, isTerm sp) ∧
        joinWithSeps newlines seps ++
          (chunks.foldl
            (fun acc chunk =>
              let r := processData acc.2 chunk
              (acc.1 ++ r.1, r.2)) (lines0, buf0)).2 = buf0 ++ chunks.flatten := by
  induction chunks with
  | nil =>
    intro lines0 buf0
    exact ⟨[], [], by simp, by simp, by simp, by simp [joinWithSeps]⟩
  | cons c cs ih =>
    intro lines0 buf0
    obtain ⟨seps1, hs1len, hs1term, hs1join⟩ := processBuffer_conserves (buf0 ++ c)
    obtain ⟨newlines2, seps2, h1, h2, h3, h4⟩ :=
      ih (lines0 ++ (processData buf0 c).1) (processData buf0 c).2
    refine ⟨(processData buf0 c).1 ++ newlines2, seps1 ++ seps2, ?_, ?_, ?_, ?_⟩
    · simpa [List.append_assoc] using h1
    · simp [hs1len, h2, processData]
    · intro sp hsp
      rcases List.mem_append.mp hsp with hm | hm
      · exact hs1term sp hm
      · exact h3 sp hm
    · have hlen1 : seps1.length = (processData buf0 c).1.length := by
        simpa [processData] using hs1len
      rw [List.foldl_cons]
      simp only []
      rw [joinWithSeps_append newlines2 seps2 hlen1, List.append_assoc]
      have h4' := h4
      rw [h4']
      have : joinWithSeps (processData buf0 c).1 seps1 ++
          ((processData buf0 c).2 ++ cs.flatten) =
          (joinWithSeps (processData buf0 c).1 seps1 ++
            (processData buf0 c).2) ++ cs.flatten := by
        simp [List.append_assoc]
      rw [this]
      have hjoin1 : joinWithSeps (processData buf0 c).1 seps1 ++
          (processData buf0 c).2 = buf0 ++ c := by
        simpa [processData] using hs1join
      rw [hjoin1]
      simp [List.append_assoc]

/-- Conservation over an arbitrary chunk sequence, started from the empty
buffer. -/
theorem feedChunks_conserves (chunks : List (List Char)) :
    ∃ seps : List (List Char),
      seps.length = (feedChunks chunks).1.length ∧
      (∀ sp ∈ seps, isTerm sp) ∧
      joinWithSeps (feedChunks chunks).1 seps ++ (feedChunks chunks).2 =
        chunks.flatten := by
  obtain ⟨newlines, seps, h1, h2, h3, h4⟩ := feedChunks_aux chunks [] []
  refine ⟨seps, ?_, h3, ?_⟩
  · rw [feedChunks, h1]; simpa using h2
  · rw [feedChunks, h1]
    simpa using h4

/-! ## Protocol client state machine (`NADClient` and subclasses)

The mutable flags of a client instance become an explicit record; the
observable side effects (transport writes, transport opens, listen-task
management, reconnect callback) become an event trace.  Transport outcomes
(`send_raw` failing with `NADClientError`, `_connect_impl` raising) are
oracles passed in as parameters, with `Nat` tags identifying distinct
exception objects. -/

/-- The mutable per-instance flags of `NADClient.__init__` (plus the
transport-writer handle of the two concrete subclasses). -/
structure ClientState where
  connected : Bool
  reconnectEnabled : Bool
  isReconnecting : Bool
  listenActive : Bool
  writerPresent : Bool
  deriving DecidableEq, Repr

/-- Observable client actions. -/
inductive Ev where
  | cancelListen : Ev
  | openTransport : Ev
  | startListen : Ev
  | reconnectCb : Ev
  | sendAttempt : List Char → Ev
  | closeTransport : Ev
  deriving DecidableEq, Repr

/-- `NADClient._try_reconnect`: guarded by `_is_reconnecting`; cancels the
old listen task, reopens the transport (`connectOk` is the outcome of
`_connect_impl`, `false` standing for any exception caught by the
`except` clause), starts a new listen task and fires the reconnect callback
on success (callback exceptions are logged and swallowed, so they do not
appear in the state).  Returns (result, new state, event trace). -/
def tryReconnect (s : ClientState) (connectOk : Bool) :
    Bool × ClientState × List Ev :=
  if s.isReconnecting then
    (false, s, [])
  else
    let evCancel := if s.listenActive then [Ev.cancelListen] else []
    if connectOk then
      (true,
        { s with connected := true, listenActive := true, isReconnecting := false },
        evCancel ++ [Ev.openTransport, Ev.startListen, Ev.reconnectCb])
    else
      (false,
        { s with connected := false, listenActive := false, isReconnecting := false },
        evCancel ++ [Ev.openTransport])

/-- `NADClient.send_command` command serialization: `cmd = f"{command}{operator}"`,
then `if value: cmd = f"{cmd}{value}"`. -/
def buildCmd (command operator value : List Char) : List Char :=
  let cmd := command ++ operator
  if value ≠ [] then cmd ++ value else cmd

/-- The wire framing applied by `send_raw` of both transports:
`f"\r{data}\r"`. -/
def wireFormat (data : List Char) : List Char :=
  [CRc] ++ data ++ [CRc]

/-- `NADTCPClient.send_raw` / `NADSerialClient.send_raw` (identical bodies):
raise (`none`) when not connected or no writer, otherwise write the
CR-wrapped command; `writeOk = false` stands for a write/drain exception.
On success the bytes put on the transport are returned. -/
def sendRaw (s : ClientState) (data : List Char) (writeOk : Bool) :
    Option (List Char) :=
  if !s.connected || !s.writerPresent then none
  else if writeOk then some (wireFormat data) else none

/-- `NADClient.send_command`: build the command, attempt the send; on
`NADClientError` (`firstErr = some e`), reconnect-and-retry once when the
client is marked disconnected and reconnect is enabled, otherwise re-raise.
`retryErr` is the outcome of the second `send_raw`.  Each `send_raw` call
contributes one `sendAttempt` event carrying the CR-wrapped bytes. -/
def sendCommand (s : ClientState) (command operator value : List Char)
    (firstErr : Option Nat) (connectOk : Bool) (retryErr : Option Nat) :
    Except Nat Unit × ClientState × List Ev :=
  let cmd := buildCmd command operator value
  match firstErr with
  | none => (Except.ok (), s, [Ev.sendAttempt (wireFormat cmd)])
  | some e =>
    if !s.connected && s.reconnectEnabled then
      let r := tryReconnect s connectOk
      if r.1 then
        match retryErr with
        | none =>
          (Except.ok (), r.2.1,
            Ev.sendAttempt (wireFormat cmd) :: r.2.2 ++ [Ev.sendAttempt (wireFormat cmd)])
        | some e2 =>
          (Except.error e2, r.2.1,
            Ev.sendAttempt (wireFormat cmd) :: r.2.2 ++ [Ev.sendAttempt (wireFormat cmd)])
      else
        (Except.error e, r.2.1, Ev.sendAttempt (wireFormat cmd) :: r.2.2)
    else
      (Except.error e, s, [Ev.sendAttempt (wireFormat cmd)])

/-- `NADTCPClient.disconnect`: early-returns when already marked
disconnected; otherwise disables reconnect, cancels the listen task,
closes the writer and marks disconnected. -/
def disconnectTCP (s : ClientState) : ClientState × List Ev :=
  if !s.connected then (s, [])
  else
    let evCancel := if s.listenActive then [Ev.cancelListen] else []
    let evClose := if s.writerPresent then [Ev.closeTransport] else []
    ({ s with
        connected := false
        reconnectEnabled := false
        listenActive := false
        writerPresent := false },
      evCancel ++ evClose)

/-- `NADSerialClient.disconnect` (same body as the TCP variant). -/
def disconnectSerial (s : ClientState) : ClientState × List Ev :=
  if !s.connected then (s, [])
  else
    let evCancel := if s.listenActive then [Ev.cancelListen] else []
    let evClose := if s.writerPresent then [Ev.closeTransport] else []
    ({ s with
        connected := false
        reconnectEnabled := false
        listenActive := false
        writerPresent := false },
      evCancel ++ evClose)

/-- Number of transport-open attempts in a trace. -/
def countOpens (tr : List Ev) : Nat :=
  tr.countP (fun ev => ev matches Ev.openTransport)

/-- Number of `send_raw` attempts in a trace. -/
def countSends (tr : List Ev) : Nat :=
  tr.countP (fun ev => ev matches Ev.sendAttempt _)

/-! ## Coordinator (`NADReceiverCoordinator`)

The `self.data` dict is modelled as a map `String → Option String`; the
coarse power projection (`MediaPlayerState`) as an `Option PowerSt`.
The debounce machinery is modelled with discrete time in milliseconds:
a pending `_debounced_notify` task is the instant at which its
`asyncio.sleep` elapses and the listener fan-out runs. -/

/-- Python's `str.lower()` on ASCII text: lower-case every character. -/
def strLower (s : String) : String := ⟨s.data.map Char.toLower⟩

/-- The two `MediaPlayerState` values the coordinator ever assigns. -/
inductive PowerSt where
  | on : PowerSt
  | off : PowerSt
  deriving DecidableEq, Repr

/-- Coordinator state relevant to message handling and debouncing. -/
structure CoordState where
  data : String → Option String
  powerState : Option PowerSt
  pending : Option Nat

/-- The debounce window of `_debounced_notify` (`asyncio.sleep(0.05)`),
in milliseconds. -/
def debounceWindowMs : Nat := 50

/-- `NADReceiverCoordinator._handle_message` at instant `now`: overwrite
the cache entry, project `Main.Power` values `on`/`off` (case-insensitive)
onto the power state leaving anything else unchanged, then cancel any
pending debounce task and schedule a fresh one that fires at
`now + debounceWindowMs`. -/
def handleMessage (s : CoordState) (key value : String) (now : Nat) :
    CoordState :=
  { data := fun k => if k = key then some value else s.data k
    powerState :=
      if key = "Main.Power" then
        if strLower value = "on" then some PowerSt.on
        else if strLower value = "off" then some PowerSt.off
        else s.powerState
      else s.powerState
    pending := some (now + debounceWindowMs) }

/-- Deliver a timestamped message stream to the coordinator.  Before each
message is handled, a pending debounce task whose deadline has passed fires
(notifying the listeners with the cache as it stands); a task that has not
yet fired is cancelled by `_handle_message` rescheduling.  After the last
message, a still-pending task eventually fires.  Returns the cache
snapshots seen by the listener fan-outs, in order, plus the final state. -/
def runMessages (s : CoordState) :
    List (Nat × String × String) → List (String → Option String) × CoordState
  | [] =>
    (match s.pending with
      | some _ => [s.data]
      | none => [],
      { s with pending := none })
  | (t, k, v) :: rest =>
    let fired : List (String → Option String) × CoordState :=
      match s.pending with
      | some f => if f ≤ t then ([s.data], { s with pending := none }) else ([], s)
      | none => ([], s)
    let s1 := handleMessage fired.2 k v t
    let r := runMessages s1 rest
    (fired.1 ++ r.1, r.2)

/-- All messages in the stream address key `k`. -/
def allKey (k : String) (evs : List (Nat × String × String)) : Prop :=
  ∀ e ∈ evs, e.2.1 = k

/-- Each message arrives strictly before the debounce deadline `f` set by
its predecessor (the coalescing regime). -/
def withinWindow : Nat → List (Nat × String × String) → Bool
  | _, [] => true
  | f, (t, _, _) :: rest => decide (t < f) && withinWindow (t + debounceWindowMs) rest

/-- Each message arrives strictly after the debounce deadline `f` set by
its predecessor (the spaced regime). -/
def spacedFrom : Nat → List (Nat × String × String) → Bool
  | _, [] => true
  | f, (t, _, _) :: rest => decide (f < t) && spacedFrom (t + debounceWindowMs) rest

/-- Fold of `_handle_message` alone over a message stream. -/
def finalState (s : CoordState) (evs : List (Nat × String × String)) :
    CoordState :=
  evs.foldl (fun acc e => handleMessage acc e.2.1 e.2.2 e.1) s

/-- `NADReceiverCoordinator._fetch_sources`, as a function of the cache it
inspects after each settle delay: for `i` in `range(1, 13)` read
`Source{i}.Enabled`; when it equals `"yes"` case-insensitively, read
`Source{i}.Name` and record the pair when the name is truthy (present and
non-empty). -/
def fetchSources (data : String → Option String) : List (Nat × String) :=
  (List.range' 1 12).filterMap (fun i =>
    if strLower ((data ("Source" ++ toString i ++ ".Enabled")).getD "") = "yes" then
      (data ("Source" ++ toString i ++ ".Name")).bind
        (fun name => if name ≠ "" then some (i, name) else none)
    else none)

/-- The query trace of `_fetch_sources`: every `Source{i}.Enabled` is
queried, and `Source{i}.Name` exactly when the cached reply was `"yes"`. -/
def fetchSourcesQueries (data : String → Option String) : List String :=
  (List.range' 1 12).flatMap (fun i =>
    ("Source" ++ toString i ++ ".Enabled") ::
      (if strLower ((data ("Source" ++ toString i ++ ".Enabled")).getD "") = "yes" then
        [("Source" ++ toString i ++ ".Name")]
      else []))

/-- Observable coordinator actions during `async_send_command`. -/
inductive CoEv where
  | clientSend : String → String → String → CoEv
  | settleSleep : CoEv
  deriving DecidableEq, Repr

/-- `NADReceiverCoordinator.async_send_command`: return `None` with no
client interaction when there is no client or it is not connected;
otherwise send through the client (`sendOk = false` standing for a
`NADClientError`, which is caught and yields `None`), sleep the settle
delay exactly for the mutating operators `"="`, `"+"`, `"-"`, and return
the cached value for the command key. -/
def asyncSendCommand (clientPresent connected sendOk : Bool)
    (data : String → Option String) (command operator value : String) :
    Option String × List CoEv :=
  if !clientPresent || !connected then (none, [])
  else if sendOk then
    (data command,
      CoEv.clientSend command operator value ::
        (if operator = "=" ∨ operator = "+" ∨ operator = "-" then
          [CoEv.settleSleep]
        else []))
  else (none, [CoEv.clientSend command operator value])

/-! ## Volume conversions (`NAD.calc_volume` / `NAD.calc_db`)

Arithmetic is taken exactly over `ℚ`; Python's `round` (banker's
rounding, ties to even) is `pyRound`. -/

/-- Python's built-in `round`: nearest integer, ties to even. -/
def pyRound (q : ℚ) : ℤ :=
  if q - ⌊q⌋ = (1 : ℚ) / 2 then
    if Even ⌊q⌋ then ⌊q⌋ else ⌊q⌋ + 1
  else round q

/-- `NAD.calc_volume`: `abs(min - d) / abs(min - max)`. -/
def calc_volume (minVolume maxVolume d : ℚ) : ℚ :=
  |minVolume - d| / |minVolume - maxVolume|

/-- `NAD.calc_db`: `min + round(abs(min - max) * volume)`. -/
def calc_db (minVolume maxVolume v : ℚ) : ℚ :=
  minVolume + (pyRound (|minVolume - maxVolume| * v) : ℚ)

/-! ## Claim theorems -/

/-- C6: `_try_reconnect` is guarded: entered with the in-progress flag set
it returns `false` at once, with no listen-task cancellation and no
transport-open attempt and no state change; entered with the flag clear,
the flag is clear again on every exit path — success, failure, or an
exception from `_connect_impl` (`connectOk = false` covers both the failure
return and the `except` path). -/
theorem tryReconnect_guard (s : ClientState) (connectOk : Bool) :
    (s.isReconnecting = true → tryReconnect s connectOk = (false, s, [])) ∧
    (s.isReconnecting = false →
      (tryReconnect s connectOk).2.1.isReconnecting = false) := by
  constructor
  · intro h
    simp [tryReconnect, h]
  · intro h
    cases connectOk <;> simp [tryReconnect, h]

/-- Witness for C6 at a concrete state in each regime. -/
theorem tryReconnect_guard_witness :
    tryReconnect
        { connected := false, reconnectEnabled := true, isReconnecting := true,
          listenActive := false, writerPresent := false } false =
      (false,
        { connected := false, reconnectEnabled := true, isReconnecting := true,
          listenActive := false, writerPresent := false }, []) ∧
    (tryReconnect
        { connected := false, reconnectEnabled := true, isReconnecting := false,
          listenActive := true, writerPresent := true } true).2.1.isReconnecting
      = false := by
  exact ⟨(tryReconnect_guard _ false).1 (by decide),
    (tryReconnect_guard _ true).2 (by decide)⟩

/-- C7: a successful send writes exactly the bytes
`"\r" + key + operator + value + "\r"` to the transport — an empty value
contributes nothing — both at the `send_raw` level and as the single
transport write of a `send_command` whose first attempt succeeds. -/
theorem send_wire_format (s : ClientState) (key operator value : List Char)
    (hc : s.connected = true) (hw : s.writerPresent = true) :
    sendRaw s (buildCmd key operator value) true =
      some ([CRc] ++ key ++ operator ++ value ++ [CRc]) ∧
    (∀ (connectOk : Bool) (retryErr : Option Nat),
      (sendCommand s key operator value none connectOk retryErr).2.2 =
        [Ev.sendAttempt ([CRc] ++ key ++ operator ++ value ++ [CRc])]) := by
  have hcmd : wireFormat (buildCmd key operator value) =
      [CRc] ++ key ++ operator ++ value ++ [CRc] := by
    unfold wireFormat buildCmd
    by_cases hv : value = []
    · subst hv
      simp
    · simp [hv, List.append_assoc]
  constructor
  · unfold sendRaw
    rw [hc, hw]
    simpa using hcmd
  · intro connectOk retryErr
    simp [sendCommand, hcmd]

/-- Witness for C7: a concrete connected state and a concrete command. -/
theorem send_wire_format_witness :
    sendRaw
        { connected := true, reconnectEnabled := true, isReconnecting := false,
          listenActive := true, writerPresent := true }
        (buildCmd ['P'] ['='] ['O', 'n']) true =
      some ([CRc] ++ ['P'] ++ ['='] ++ ['O', 'n'] ++ [CRc]) := by
  exact (send_wire_format _ ['P'] ['='] ['O', 'n'] rfl rfl).1

/-- C1: when the first transport write of `send_command` raises a client
error: marked disconnected with reconnect enabled, exactly one reconnect
cycle runs (one transport-open attempt); if it succeeds the command is
resent exactly once, after the reconnect; if it fails the original error
is propagated with no resend; marked connected or reconnect disabled, the
original error is propagated immediately with no reconnect attempt and no
resend. -/
theorem sendCommand_retry_policy (s : ClientState) (key op value : List Char)
    (e : Nat) (connectOk : Bool) (retryErr : Option Nat)
    (hguard : s.isReconnecting = false) :
    (s.connected = false → s.reconnectEnabled = true →
      countOpens (sendCommand s key op value (some e) connectOk retryErr).2.2 = 1 ∧
      (connectOk = true →
        (sendCommand s key op value (some e) connectOk retryErr).2.2 =
          Ev.sendAttempt (wireFormat (buildCmd key op value)) ::
            ((if s.listenActive then [Ev.cancelListen] else []) ++
              [Ev.openTransport, Ev.startListen, Ev.reconnectCb,
                Ev.sendAttempt (wireFormat (buildCmd key op value))]) ∧
        (sendCommand s key op value (some e) connectOk retryErr).1 =
          (match retryErr with
            | none => Except.ok ()
            | some e2 => Except.error e2)) ∧
      (connectOk = false →
        (sendCommand s key op value (some e) connectOk retryErr).1 =
          Except.error e ∧
        countSends (sendCommand s key op value (some e) connectOk retryErr).2.2 = 1)) ∧
    (s.connected = true ∨ s.reconnectEnabled = false →
      (sendCommand s key op value (some e) connectOk retryErr).1 = Except.error e ∧
      (sendCommand s key op value (some e) connectOk retryErr).2.2 =
        [Ev.sendAttempt (wireFormat (buildCmd key op value))]) := by
  constructor
  · intro hc hr
    refine ⟨?_, ?_, ?_⟩
    · cases connectOk <;>
        cases hl : s.listenActive <;>
          rcases retryErr with _ | e2 <;>
            simp [sendCommand, tryReconnect, hc, hr, hguard, hl, countOpens]
    · intro hok
      subst hok
      rcases retryErr with _ | e2 <;>
        simp [sendCommand, tryReconnect, hc, hr, hguard]
    · intro hko
      subst hko
      cases hl : s.listenActive <;>
        simp [sendCommand, tryReconnect, hc, hr, hguard, hl, countSends]
  · intro hor
    rcases hor with hc | hr
    · simp [sendCommand, hc]
    · by_cases hc : s.connected = true
      · simp [sendCommand, hc]
      · simp only [Bool.not_eq_true] at hc
        simp [sendCommand, hc, hr]

/-- Witness for C1 in the disconnected-and-reconnect-succeeds regime. -/
theorem sendCommand_retry_policy_witness :
    countOpens (sendCommand
        { connected := false, reconnectEnabled := true, isReconnecting := false,
          listenActive := true, writerPresent := true }
        ['V'] ['?'] [] (some 7) true none).2.2 = 1 := by
  exact ((sendCommand_retry_policy _ ['V'] ['?'] [] 7 true none rfl).1
    rfl rfl).1

/-- C3 counterexample: calling `disconnect()` on a client whose connected
flag is already false (as after the listen loop observed a peer close)
takes the `if not self._connected: return` early exit, so the
reconnect-enabled flag is NOT false afterwards, and a later failed send on
that client does trigger a reconnect attempt (one transport open). -/
theorem disconnect_not_permanent_counterexample :
    ¬ ((disconnectTCP
        { connected := false, reconnectEnabled := true, isReconnecting := false,
          listenActive := false, writerPresent := false }).1.reconnectEnabled
        = false) ∧
    countOpens (sendCommand
        (disconnectTCP
          { connected := false, reconnectEnabled := true, isReconnecting := false,
            listenActive := false, writerPresent := false }).1
        ['V'] ['?'] [] (some 3) false none).2.2 = 1 := by
  constructor
  · decide
  · decide

/-- C3 (amended): `disconnect()` is idempotent; called while the client is
marked connected it disables future auto-reconnect, cancels the listen
task, closes the transport and marks the client disconnected (both
transports behave identically); called while already marked disconnected
it returns immediately with no state change, so the reconnect-enabled flag
may remain true and a later failed send can still attempt a reconnect. -/
theorem disconnect_amended (s : ClientState) :
    (s.connected = true →
      (disconnectTCP s).1.reconnectEnabled = false ∧
      (disconnectTCP s).1.connected = false ∧
      (disconnectTCP s).1.listenActive = false ∧
      (disconnectTCP s).1.writerPresent = false) ∧
    (s.connected = false → disconnectTCP s = (s, [])) ∧
    disconnectSerial s = disconnectTCP s ∧
    disconnectTCP (disconnectTCP s).1 = ((disconnectTCP s).1, []) := by
  refine ⟨?_, ?_, ?_, ?_⟩
  · intro hc
    simp [disconnectTCP, hc]
  · intro hc
    simp [disconnectTCP, hc]
  · rfl
  · by_cases hc : s.connected = true
    · simp [disconnectTCP, hc]
    · simp only [Bool.not_eq_true] at hc
      simp [disconnectTCP, hc]

/-- Witness for C3 (amended) at a concrete connected state. -/
theorem disconnect_amended_witness :
    (disconnectTCP
        { connected := true, reconnectEnabled := true, isReconnecting := false,
          listenActive := true, writerPresent := true }).1.reconnectEnabled
      = false := by
  exact ((disconnect_amended _).1 rfl).1

/-- C4: `_handle_message` overwrites the cache entry for the key with the
value; for key `Main.Power` a value case-insensitively equal to `on`
projects power ON, `off` projects OFF, and any other value (e.g.
`Standby`) leaves the projection unchanged; no error is raised (the
function is total). -/
theorem handleMessage_cache_and_power (s : CoordState) (key value : String)
    (now : Nat) :
    (handleMessage s key value now).data key = some value ∧
    (key = "Main.Power" →
      (strLower value = "on" →
        (handleMessage s key value now).powerState = some PowerSt.on) ∧
      (strLower value = "off" →
        (handleMessage s key value now).powerState = some PowerSt.off) ∧
      (strLower value ≠ "on" → strLower value ≠ "off" →
        (handleMessage s key value now).powerState = s.powerState)) ∧
    (key ≠ "Main.Power" →
      (handleMessage s key value now).powerState = s.powerState) := by
  refine ⟨by simp [handleMessage], ?_, ?_⟩
  · intro hk
    refine ⟨?_, ?_, ?_⟩
    · intro hv
      simp [handleMessage, hk, hv]
    · intro hv
      by_cases hon : strLower value = "on"
      · rw [hon] at hv
        exact absurd hv (by decide)
      · simp [handleMessage, hk, hon, hv]
    · intro hon hoff
      simp [handleMessage, hk, hon, hoff]
  · intro hk
    simp [handleMessage, hk]

/-- Witness for C4: the three example messages of the spec, on a cache
seeded with a prior ON projection. -/
theorem handleMessage_cache_and_power_witness :
    (handleMessage ⟨fun _ => none, none, none⟩ "Main.Power" "On" 0).data
        "Main.Power" = some "On" ∧
    (handleMessage ⟨fun _ => none, none, none⟩ "Main.Power" "On" 0).powerState
      = some PowerSt.on ∧
    (handleMessage ⟨fun _ => none, some PowerSt.on, none⟩ "Main.Power" "off"
        0).powerState = some PowerSt.off ∧
    (handleMessage ⟨fun _ => none, some PowerSt.on, none⟩ "Main.Power"
        "Standby" 0).powerState = some PowerSt.on := by
  refine ⟨(handleMessage_cache_and_power _ _ _ _).1, ?_, ?_, ?_⟩
  · exact (((handleMessage_cache_and_power _ "Main.Power" "On" 0).2.1 rfl).1
      (by decide))
  · exact (((handleMessage_cache_and_power _ "Main.Power" "off" 0).2.1 rfl).2.1
      (by decide))
  · exact (((handleMessage_cache_and_power
      ⟨fun _ => none, some PowerSt.on, none⟩ "Main.Power" "Standby" 0).2.1
        rfl).2.2 (by decide) (by decide))

/-- C9: `async_send_command` returns `None` without contacting the client
when the client is absent or not connected; otherwise (send succeeding) it
performs the send, sleeps the settle delay exactly when the operator is
one of `"="`, `"+"`, `"-"`, and returns the current cached value for the
command key (`None` when the key is absent). -/
theorem asyncSendCommand_policy (clientPresent connected sendOk : Bool)
    (data : String → Option String) (command operator value : String) :
    (clientPresent = false ∨ connected = false →
      asyncSendCommand clientPresent connected sendOk data command operator
        value = (none, [])) ∧
    (clientPresent = true → connected = true → sendOk = true →
      (asyncSendCommand clientPresent connected sendOk data command operator
          value).1 = data command ∧
      (CoEv.settleSleep ∈
          (asyncSendCommand clientPresent connected sendOk data command
            operator value).2 ↔
        (operator = "=" ∨ operator = "+" ∨ operator = "-")) ∧
      CoEv.clientSend command operator value ∈
        (asyncSendCommand clientPresent connected sendOk data command
          operator value).2) := by
  constructor
  · intro hor
    rcases hor with h | h <;> simp [asyncSendCommand, h]
  · intro hp hc hs
    subst hp; subst hc; subst hs
    refine ⟨by simp [asyncSendCommand], ?_, ?_⟩
    · by_cases hop : operator = "=" ∨ operator = "+" ∨ operator = "-" <;>
        simp [asyncSendCommand, hop]
    · by_cases hop : operator = "=" ∨ operator = "+" ∨ operator = "-" <;>
        simp [asyncSendCommand, hop]

/-- Witness for C9: a connected send of `Main.Volume=-50` against a cache
holding `-50`, and a rejected send while disconnected. -/
theorem asyncSendCommand_policy_witness :
    asyncSendCommand true false true (fun _ => none) "Main.Volume" "=" "-50"
      = (none, []) ∧
    (asyncSendCommand true true true
        (fun k => if k = "Main.Volume" then some "-50" else none)
        "Main.Volume" "=" "-50").1 = some "-50" := by
  constructor
  · exact (asyncSendCommand_policy true false true (fun _ => none)
      "Main.Volume" "=" "-50").1 (Or.inr rfl)
  · exact ((asyncSendCommand_policy true true true _ "Main.Volume" "=" "-50").2
      rfl rfl rfl).1

/-- C2: for every finite chunk sequence, the emitted lines interleaved with
a matching choice of terminators (`"\r\n"`, `"\n"` or `"\r"`), followed by
the leftover buffer, reassemble the concatenated input exactly — no byte
loss or duplication, wherever terminators fall across chunk boundaries;
and each splitting iteration prefers `"\r\n"`: whenever `"\r\n"` occurs in
the remaining buffer, the line is cut at its first occurrence. -/
theorem framer_conservation_and_preference :
    (∀ chunks : List (List Char),
      ∃ seps : List (List Char),
        seps.length = (feedChunks chunks).1.length ∧
        (∀ sp ∈ seps, isTerm sp) ∧
        joinWithSeps (feedChunks chunks).1 seps ++ (feedChunks chunks).2 =
          chunks.flatten) ∧
    (∀ buf line rest : List Char,
      splitFirst [CRc, LFc] buf = some (line, rest) →
      processBuffer buf =
        (line :: (processBuffer rest).1, (processBuffer rest).2)) := by
  exact ⟨feedChunks_conserves, fun _ _ _ h => processBuffer_eq_crlf h⟩

/-- Witness for C2: the buffer `"a\r\nb"` splits at the `"\r\n"` even
though a lone `"\r"` precedes the `"\n"`. -/
theorem framer_conservation_and_preference_witness :
    processBuffer ['a', CRc, LFc, 'b'] = ([['a']], ['b']) := by
  have h := framer_conservation_and_preference.2 ['a', CRc, LFc, 'b']
    ['a'] ['b'] rfl
  rw [h, @processBuffer_eq_none ['b'] rfl rfl rfl]

/-- C8: source discovery ranges over indices 1..12 exactly; index `i` with
a cached `Source{i}.Enabled` reply case-insensitively equal to `"yes"` and
a non-empty cached `Source{i}.Name` contributes `i -> name`, and nothing
else is recorded; the Enabled key is queried for every index and the Name
key exactly for the enabled ones.  On the spec's example cache the table
is `{3: "CD"}` with no entry for 5. -/
theorem fetchSources_table :
    (∀ (data : String → Option String) (i : Nat) (name : String),
      (i, name) ∈ fetchSources data ↔
        (i ∈ List.range' 1 12 ∧
          strLower ((data ("Source" ++ toString i ++ ".Enabled")).getD "")
            = "yes" ∧
          data ("Source" ++ toString i ++ ".Name") = some name ∧
          name ≠ "")) ∧
    fetchSources (fun k =>
        if k = "Source3.Enabled" then some "Yes"
        else if k = "Source3.Name" then some "CD"
        else if k = "Source5.Enabled" then some "No"
        else none) = [(3, "CD")] ∧
    fetchSourcesQueries (fun k =>
        if k = "Source3.Enabled" then some "Yes"
        else if k = "Source3.Name" then some "CD"
        else if k = "Source5.Enabled" then some "No"
        else none) =
      ["Source1.Enabled", "Source2.Enabled", "Source3.Enabled",
        "Source3.Name", "Source4.Enabled", "Source5.Enabled",
        "Source6.Enabled", "Source7.Enabled", "Source8.Enabled",
        "Source9.Enabled", "Source10.Enabled", "Source11.Enabled",
        "Source12.Enabled"] := by
  refine ⟨?_, by decide, by decide⟩
  intro data i name
  constructor
  · intro hmem
    obtain ⟨j, hj, hf⟩ := List.mem_filterMap.mp hmem
    by_cases hen :
        strLower ((data ("Source" ++ toString j ++ ".Enabled")).getD "")
          = "yes"
    · rw [if_pos hen] at hf
      cases hlook : data ("Source" ++ toString j ++ ".Name") with
      | none => rw [hlook] at hf; exact absurd hf (by simp)
      | some nm =>
        rw [hlook, Option.some_bind] at hf
        by_cases hnm : nm ≠ ""
        · rw [if_pos hnm] at hf
          obtain ⟨h1, h2⟩ := Prod.mk.injEq .. ▸ Option.some.injEq .. ▸ hf
          subst h1
          subst h2
          exact ⟨hj, hen, hlook, hnm⟩
        · rw [if_neg hnm] at hf
          exact absurd hf (by simp)
    · rw [if_neg hen] at hf
      exact absurd hf (by simp)
  · rintro ⟨hi, hen, hname, hne⟩
    refine List.mem_filterMap.mpr ⟨i, hi, ?_⟩
    rw [if_pos hen, hname, Option.some_bind, if_pos hne]

/-- `round` of an integer is itself, with Python's tie-to-even rule. -/
theorem pyRound_intCast (n : ℤ) : pyRound (n : ℚ) = n := by
  unfold pyRound
  rw [Int.floor_intCast]
  have h0 : (n : ℚ) - (n : ℚ) = 0 := by ring
  rw [h0, if_neg (by norm_num)]
  exact round_intCast n

/-- C10: with exact rational arithmetic and integer volume bounds
`min < max`, the conversions round-trip on every integer decibel
`min ≤ d ≤ max`, and `calc_volume` maps `min` to `0` and `max` to `1`. -/
theorem volume_conversion_roundtrip (minV maxV d : ℤ)
    (hlt : minV < maxV) (h1 : minV ≤ d) (h2 : d ≤ maxV) :
    calc_db (minV : ℚ) (maxV : ℚ)
        (calc_volume (minV : ℚ) (maxV : ℚ) (d : ℚ)) = (d : ℚ) ∧
    calc_volume (minV : ℚ) (maxV : ℚ) (minV : ℚ) = 0 ∧
    calc_volume (minV : ℚ) (maxV : ℚ) (maxV : ℚ) = 1 := by
  have hltQ : (minV : ℚ) < (maxV : ℚ) := by exact_mod_cast hlt
  have habsmm : |(minV : ℚ) - (maxV : ℚ)| = (maxV : ℚ) - (minV : ℚ) := by
    rw [abs_of_neg (by linarith)]
    ring
  have hne : (maxV : ℚ) - (minV : ℚ) ≠ 0 := by
    intro h
    have : (minV : ℚ) = (maxV : ℚ) := by linarith
    exact absurd this (ne_of_lt hltQ)
  have habsd : |(minV : ℚ) - (d : ℚ)| = (d : ℚ) - (minV : ℚ) := by
    have : (minV : ℚ) ≤ (d : ℚ) := by exact_mod_cast h1
    rw [abs_of_nonpos (by linarith)]
    ring
  refine ⟨?_, ?_, ?_⟩
  · unfold calc_db calc_volume
    rw [habsmm, habsd]
    rw [mul_comm, div_mul_cancel₀ _ hne]
    have hcast : (d : ℚ) - (minV : ℚ) = ((d - minV : ℤ) : ℚ) := by
      push_cast
      ring
    rw [hcast, pyRound_intCast]
    push_cast
    ring
  · unfold calc_volume
    simp
  · unfold calc_volume
    rw [habsmm]
    exact div_self hne

/-- Witness for C10 at the integration's default volume bounds. -/
theorem volume_conversion_roundtrip_witness :
    calc_db ((-92 : ℤ) : ℚ) ((-20 : ℤ) : ℚ)
        (calc_volume ((-92 : ℤ) : ℚ) ((-20 : ℤ) : ℚ) ((-50 : ℤ) : ℚ))
      = ((-50 : ℤ) : ℚ) := by
  exact (volume_conversion_roundtrip (-92) (-20) (-50) (by decide) (by decide)
    (by decide)).1

/-- In the coalescing regime every pending task is cancelled before it can
fire, so only the final flush notifies, with the fully updated cache. -/
theorem runMessages_coalesce :
    ∀ (evs : List (Nat × String × String)) (s : CoordState) (f : Nat),
      s.pending = some f → withinWindow f evs = true →
      (runMessages s evs).1 = [(finalState s evs).data] := by
  intro evs
  induction evs with
  | nil =>
    intro s f hp _
    simp [runMessages, hp, finalState]
  | cons e rest ih =>
    intro s f hp hw
    obtain ⟨t, k, v⟩ := e
    rw [withinWindow, Bool.and_eq_true, decide_eq_true_eq] at hw
    obtain ⟨ht, hw2⟩ := hw
    have hnotle : ¬ (f ≤ t) := Nat.not_le.mpr ht
    have hrec := ih (handleMessage s k v t) (t + debounceWindowMs) rfl hw2
    simp only [runMessages, hp, hnotle, if_false, finalState, List.foldl_cons]
    simpa [finalState] using hrec

/-- In the spaced regime every scheduled task fires, so there is one
notification per message (the last one at the final flush). -/
theorem runMessages_spaced :
    ∀ (evs : List (Nat × String × String)) (s : CoordState) (f : Nat),
      s.pending = some f → spacedFrom f evs = true →
      (runMessages s evs).1.length = evs.length + 1 := by
  intro evs
  induction evs with
  | nil =>
    intro s f hp _
    simp [runMessages, hp]
  | cons e rest ih =>
    intro s f hp hs
    obtain ⟨t, k, v⟩ := e
    rw [spacedFrom, Bool.and_eq_true, decide_eq_true_eq] at hs
    obtain ⟨ht, hs2⟩ := hs
    have hle : f ≤ t := Nat.le_of_lt ht
    have hrec := ih (handleMessage { s with pending := none } k v t)
      (t + debounceWindowMs) rfl hs2
    simp only [runMessages, hp, hle, if_true, if_pos]
    simp [hrec]

/-- After folding `_handle_message` over a nonempty single-key stream, the
cache holds the last value sent for that key. -/
theorem finalState_data_getLast (k : String) :
    ∀ (evs : List (Nat × String × String)) (s : CoordState) (hne : evs ≠ []),
      allKey k evs → (finalState s evs).data k = some (evs.getLast hne).2.2 := by
  intro evs
  induction evs with
  | nil =>
    intro s hne _
    exact absurd rfl hne
  | cons e rest ih =>
    intro s _ hk
    obtain ⟨t, kk, v⟩ := e
    cases rest with
    | nil =>
      have hkk : kk = k := hk (t, kk, v) (by simp)
      subst hkk
      simp [finalState, handleMessage, List.getLast]
    | cons e2 rest2 =>
      have hk2 : allKey k (e2 :: rest2) :=
        fun x hx => hk x (List.mem_cons_of_mem _ hx)
      have := ih (handleMessage s kk v t) (by simp) hk2
      simp only [finalState, List.foldl_cons] at this ⊢
      rw [List.getLast_cons (by simp)]
      exact this

/-- C5: a new message cancels any not-yet-fired debounce task before
scheduling a new one, so only the most recent scheduling fires: a nonempty
single-key stream whose gaps are all below the debounce window produces
exactly one listener notification, at which the cache holds the final
value; a stream whose gaps all exceed the window produces one notification
per message. -/
theorem debounce_coalescing (k : String) (s : CoordState)
    (e : Nat × String × String) (rest : List (Nat × String × String))
    (hp : s.pending = none) (hk : allKey k (e :: rest)) :
    (withinWindow (e.1 + debounceWindowMs) rest = true →
      (runMessages s (e :: rest)).1.length = 1 ∧
      (runMessages s (e :: rest)).1.headI k =
        some ((e :: rest).getLast (by simp)).2.2) ∧
    (spacedFrom (e.1 + debounceWindowMs) rest = true →
      (runMessages s (e :: rest)).1.length = (e :: rest).length) := by
  obtain ⟨t, kk, v⟩ := e
  constructor
  · intro hw
    have hco := runMessages_coalesce rest (handleMessage s kk v t)
      (t + debounceWindowMs) rfl hw
    have hrun : (runMessages s ((t, kk, v) :: rest)).1 =
        (runMessages (handleMessage s kk v t) rest).1 := by
      simp [runMessages, hp]
    rw [hrun, hco]
    refine ⟨rfl, ?_⟩
    simp only [List.headI]
    exact finalState_data_getLast k ((t, kk, v) :: rest) s (by simp) hk
  · intro hs
    have hsp := runMessages_spaced rest (handleMessage s kk v t)
      (t + debounceWindowMs) rfl hs
    have hrun : (runMessages s ((t, kk, v) :: rest)).1 =
        (runMessages (handleMessage s kk v t) rest).1 := by
      simp [runMessages, hp]
    rw [hrun, hsp]
    simp

/-- Witness for C5: ten volume updates 1 ms apart (well inside the 50 ms
window) yield exactly one notification, carrying the last value. -/
theorem debounce_coalescing_witness :
    (runMessages ⟨fun _ => none, none, none⟩
        [(0, "Main.Volume", "-41"), (1, "Main.Volume", "-42"),
          (2, "Main.Volume", "-43"), (3, "Main.Volume", "-44"),
          (4, "Main.Volume", "-45"), (5, "Main.Volume", "-46"),
          (6, "Main.Volume", "-47"), (7, "Main.Volume", "-48"),
          (8, "Main.Volume", "-49"), (9, "Main.Volume", "-50")]).1.length
      = 1 ∧
    (runMessages ⟨fun _ => none, none, none⟩
        [(0, "Main.Volume", "-41"), (1, "Main.Volume", "-42"),
          (2, "Main.Volume", "-43"), (3, "Main.Volume", "-44"),
          (4, "Main.Volume", "-45"), (5, "Main.Volume", "-46"),
          (6, "Main.Volume", "-47"), (7, "Main.Volume", "-48"),
          (8, "Main.Volume", "-49"), (9, "Main.Volume", "-50")]).1.headI
      "Main.Volume" = some "-50" := by
  have h := (debounce_coalescing "Main.Volume" ⟨fun _ => none, none, none⟩
    (0, "Main.Volume", "-41")
    [(1, "Main.Volume", "-42"), (2, "Main.Volume", "-43"),
      (3, "Main.Volume", "-44"), (4, "Main.Volume", "-45"),
      (5, "Main.Volume", "-46"), (6, "Main.Volume", "-47"),
      (7, "Main.Volume", "-48"), (8, "Main.Volume", "-49"),
      (9, "Main.Volume", "-50")] rfl (by simp [allKey])).1 (by decide)
  refine ⟨h.1, ?_⟩
  rw [h.2]
  rfl

end NADSimple
